import Mathlib

set_option autoImplicit false

/-!
Verification of the QSTN NFT contract (src/nft/src/lib.rs): a NEAR
non-fungible-token contract consisting of a mint gate (tri-state policy plus a
whitelist), owner-only administrative calls, and the standard NFT ledger
(token store, approvals, enumeration) provided by `near-contract-standards`.

The gate, the administrative calls and initialization are embedded directly
from the Rust source.  The ledger operations and the storage accountant live in
external crates (`near-contract-standards`, `near-sdk`); they are modelled from
the specification, each such definition carrying a doc comment starting with
`Modelled from the spec:`.
-/

namespace NftSpec

abbrev AccountId := String
abbrev TokenId := String

/-- Failure outcomes of contract calls.  In the Rust source every failure is a
panic (an `assert!`/`panic!` message or a panic inside the standards crate);
the constructors name the spec-level error taxonomy.  `OwnerOnly` stands for
the "Only Contract owner can ..." assertion failures of the administrative
calls, and `AlreadyInitialized` for the "Already initialized" assertion in
`new`. -/
inductive Err where
  | DuplicateTokenId
  | TokenNotFound
  | NotAuthorized
  | SameOwner
  | InsufficientDeposit
  | InvalidPolicyValue
  | NotWhitelisted
  | MintingDisabled
  | AlreadyInitialized
  | InvalidMetadata
  | OwnerOnly
  deriving DecidableEq

/-- The mint-approval policy (`enum Status` in the source): `All` is the
spec's `Open`, `Whitelist` is `Whitelisted`, `None` is `Closed`. -/
inductive Status where
  | All
  | Whitelist
  | None
  deriving DecidableEq

/-- Per-token metadata (a representative subset of the standard fields; the
contract never inspects its content, it only stores and returns it). -/
structure TokenMetadata where
  title : Option String
  description : Option String
  media : Option String
  deriving DecidableEq

/-- Contract-level metadata, the fields of `NFTContractMetadata`. -/
structure NFTContractMetadata where
  spec : String
  name : String
  symbol : String
  icon : Option String
  base_uri : Option String
  reference : Option String
  reference_hash : Option String
  deriving DecidableEq

/-- A token as returned by mint and view calls. -/
structure Token where
  token_id : TokenId
  owner_id : AccountId
  metadata : Option TokenMetadata
  deriving DecidableEq

/-- First-match association-list lookup (the map semantics of the persistent
collections used by the ledger). -/
def alookup {α β : Type} [DecidableEq α] : List (α × β) → α → Option β
  | [], _ => none
  | p :: rest, k => if p.1 = k then some p.2 else alookup rest k

/-- Modelled from the spec: the Token Store, Approval Ledger and Enumeration
Index of the standard `NonFungibleToken` struct, whose implementation lives in
the external `near-contract-standards` crate and is not part of this
repository.  `owner_by_id` is the ownership map (insertion order is the global
enumeration order), `tokens_per_owner` the per-owner enumeration sets,
`approvals_by_id` the per-token approval map and `next_approval_id_by_id` its
monotone counter. -/
structure NonFungibleToken where
  owner_id : AccountId
  owner_by_id : List (TokenId × AccountId)
  token_metadata_by_id : TokenId → Option TokenMetadata
  tokens_per_owner : AccountId → List TokenId
  approvals_by_id : TokenId → List (AccountId × Nat)
  next_approval_id_by_id : TokenId → Nat

/-- Modelled from the spec: the empty ledger created by
`NonFungibleToken::new` at initialization. -/
def NonFungibleToken.init (owner : AccountId) : NonFungibleToken where
  owner_id := owner
  owner_by_id := []
  token_metadata_by_id := fun _ => none
  tokens_per_owner := fun _ => []
  approvals_by_id := fun _ => []
  next_approval_id_by_id := fun _ => 0

/-- The contract state (`struct Contract` in the source). -/
structure Contract where
  tokens : NonFungibleToken
  metadata : Option NFTContractMetadata
  mint_approval_status : Status
  whitelist_accounts : List AccountId

/-- The host-environment identities a call observes:
`env::current_account_id()` and `env::predecessor_account_id()`. -/
structure Env where
  current_account_id : AccountId
  predecessor_account_id : AccountId

/-- Modelled from the spec: `NFTContractMetadata::assert_valid` (external
crate).  The spec only requires the optional off-chain reference and its
integrity hash to be supplied together. -/
def NFTContractMetadata.assert_valid (m : NFTContractMetadata) : Bool :=
  m.reference.isSome == m.reference_hash.isSome

/-- The contract built by a successful `new(owner_id, metadata)`. -/
def Contract.initState (owner_id : AccountId) (metadata : NFTContractMetadata) : Contract where
  tokens := NonFungibleToken.init owner_id
  metadata := some metadata
  mint_approval_status := Status.None
  whitelist_accounts := []

/-- `new(owner_id, metadata)`: fails if the contract state already exists,
validates the metadata, and otherwise produces the initial state with policy
`Status.None` and an empty whitelist.  `state_exists` embeds the host
primitive `env::state_exists()`. -/
def Contract.new (state_exists : Bool) (owner_id : AccountId)
    (metadata : NFTContractMetadata) : Except Err Contract :=
  if state_exists then Except.error Err.AlreadyInitialized
  else if metadata.assert_valid then Except.ok (Contract.initState owner_id metadata)
  else Except.error Err.InvalidMetadata

/-- The default collection metadata used by `new_default_meta` (the icon data
URI is abbreviated; its content is never inspected). -/
def default_meta : NFTContractMetadata where
  spec := ("nft-1.0.0")
  name := ("QSTN NFT")
  symbol := ("QSTN")
  icon := some ("data:image/svg+xml,(svg path data)")
  base_uri := none
  reference := none
  reference_hash := none

/-- `new_default_meta(owner_id)` delegates to `new` with `default_meta`. -/
def Contract.new_default_meta (state_exists : Bool) (owner_id : AccountId) :
    Except Err Contract :=
  Contract.new state_exists owner_id default_meta

/-- `nft_metadata()`: returns the stored contract metadata
(`self.metadata.get().unwrap()`; the value is `some` from initialization on). -/
def Contract.nft_metadata (c : Contract) : Option NFTContractMetadata :=
  c.metadata

/-- Modelled from the spec: `internal_mint` of the external standards crate.
Fails with `DuplicateTokenId` when the token id already exists; otherwise
records the owner and metadata and appends the token to the receiver's
enumeration set. -/
def NonFungibleToken.internal_mint (s : NonFungibleToken) (token_id : TokenId)
    (receiver_id : AccountId) (token_metadata : TokenMetadata) :
    Except Err (Token × NonFungibleToken) :=
  match alookup s.owner_by_id token_id with
  | some _ => Except.error Err.DuplicateTokenId
  | none =>
    Except.ok
      ({ token_id := token_id, owner_id := receiver_id, metadata := some token_metadata },
        { s with
          owner_by_id := s.owner_by_id ++ [(token_id, receiver_id)]
          token_metadata_by_id := fun t =>
            if t = token_id then some token_metadata else s.token_metadata_by_id t
          tokens_per_owner := fun a =>
            if a = receiver_id then s.tokens_per_owner a ++ [token_id]
            else s.tokens_per_owner a })

/-- `nft_mint(token_id, receiver_id, token_metadata)`: the mint gate.  The
contract account itself may always mint; otherwise the policy decides:
`All` mints, `Whitelist` mints iff the caller is in the whitelist, `None`
refuses. -/
def Contract.nft_mint (c : Contract) (env : Env) (token_id : TokenId)
    (receiver_id : AccountId) (token_metadata : TokenMetadata) :
    Except Err (Token × Contract) :=
  if env.current_account_id = env.predecessor_account_id then
    (c.tokens.internal_mint token_id receiver_id token_metadata).map
      (fun r => (r.1, { c with tokens := r.2 }))
  else
    match c.mint_approval_status with
    | Status.All =>
      (c.tokens.internal_mint token_id receiver_id token_metadata).map
        (fun r => (r.1, { c with tokens := r.2 }))
    | Status.Whitelist =>
      if env.predecessor_account_id ∈ c.whitelist_accounts then
        (c.tokens.internal_mint token_id receiver_id token_metadata).map
          (fun r => (r.1, { c with tokens := r.2 }))
      else Except.error Err.NotWhitelisted
    | Status.None => Except.error Err.MintingDisabled

/-- `add_whitelist_account(whitelist_account)`: asserts the caller is the
contract account itself, then pushes the account onto the whitelist vector
(no duplicate check) and returns `true`. -/
def Contract.add_whitelist_account (c : Contract) (env : Env)
    (whitelist_account : AccountId) : Except Err (Bool × Contract) :=
  if env.current_account_id = env.predecessor_account_id then
    Except.ok (true,
      { c with whitelist_accounts := c.whitelist_accounts ++ [whitelist_account] })
  else Except.error Err.OwnerOnly

/-- `remove_whitelist_account(whitelist_account)`: asserts the caller is the
contract account itself; removes the first matching entry when present
(`iter().position` + `remove(index)`, embedded as `List.erase`), is a no-op
when absent, and returns `true` either way. -/
def Contract.remove_whitelist_account (c : Contract) (env : Env)
    (whitelist_account : AccountId) : Except Err (Bool × Contract) :=
  if env.current_account_id = env.predecessor_account_id then
    Except.ok (true,
      { c with whitelist_accounts := c.whitelist_accounts.erase whitelist_account })
  else Except.error Err.OwnerOnly

/-- `get_whitelist_accounts()`. -/
def Contract.get_whitelist_accounts (c : Contract) : List AccountId :=
  c.whitelist_accounts

/-- `change_nft_approval_status(approval_status)`: asserts the caller is the
contract account itself, then matches the literal string: "all" sets `All`,
"whitelist" sets `Whitelist`, "none" sets `None`, anything else panics with
"Invalid approval status". -/
def Contract.change_nft_approval_status (c : Contract) (env : Env)
    (approval_status : String) : Except Err Contract :=
  if env.current_account_id = env.predecessor_account_id then
    if approval_status = ("all") then
      Except.ok { c with mint_approval_status := Status.All }
    else if approval_status = ("whitelist") then
      Except.ok { c with mint_approval_status := Status.Whitelist }
    else if approval_status = ("none") then
      Except.ok { c with mint_approval_status := Status.None }
    else Except.error Err.InvalidPolicyValue
  else Except.error Err.OwnerOnly

/-- `get_nft_approval_status()`. -/
def Contract.get_nft_approval_status (c : Contract) : Status :=
  c.mint_approval_status

/-- Rewrite the owner of `token_id` in the ownership map, leaving keys and
their order unchanged. -/
def setOwner (l : List (TokenId × AccountId)) (token_id : TokenId)
    (new_owner : AccountId) : List (TokenId × AccountId) :=
  l.map (fun p => if p.1 = token_id then (p.1, new_owner) else p)

/-- Move `token_id` between per-owner enumeration sets: delete it from
`old_owner`'s set and append it to `new_owner`'s set. -/
def movePerOwner (f : AccountId → List TokenId) (token_id : TokenId)
    (old_owner new_owner : AccountId) : AccountId → List TokenId :=
  fun a =>
    if a = new_owner then
      (if a = old_owner then (f a).filter (fun t => t ≠ token_id) else f a) ++ [token_id]
    else if a = old_owner then (f a).filter (fun t => t ≠ token_id) else f a

/-- Modelled from the spec: the unguarded ownership rewrite shared by the
transfer commit phase and the resolve-phase revert — update `owner_by_id` and
keep the enumeration sets in sync. -/
def NonFungibleToken.internal_transfer_unguarded (s : NonFungibleToken)
    (token_id : TokenId) (old_owner new_owner : AccountId) : NonFungibleToken :=
  { s with
    owner_by_id := setOwner s.owner_by_id token_id new_owner
    tokens_per_owner := movePerOwner s.tokens_per_owner token_id old_owner new_owner }

/-- Modelled from the spec: whether `sender` holds a currently valid approval
for the token, matching the supplied approval id exactly when one is given. -/
def is_approved_sender (approvals : List (AccountId × Nat)) (sender : AccountId)
    (approval_id : Option Nat) : Bool :=
  match alookup approvals sender with
  | none => false
  | some actual =>
    match approval_id with
    | none => true
    | some requested => decide (requested = actual)

/-- Modelled from the spec: `internal_transfer` of the external standards
crate — the synchronous transfer.  Fails with `TokenNotFound`,
`NotAuthorized` (sender is neither the owner nor an approval holder matching
the supplied id) or `SameOwner`; on success rewrites ownership, clears the
token's approvals, and returns the previous owner with the previous approval
map. -/
def NonFungibleToken.internal_transfer (s : NonFungibleToken)
    (sender_id receiver_id : AccountId) (token_id : TokenId)
    (approval_id : Option Nat) :
    Except Err ((AccountId × List (AccountId × Nat)) × NonFungibleToken) :=
  match alookup s.owner_by_id token_id with
  | none => Except.error Err.TokenNotFound
  | some owner =>
    if sender_id = owner ∨
        is_approved_sender (s.approvals_by_id token_id) sender_id approval_id = true then
      if owner = receiver_id then Except.error Err.SameOwner
      else
        Except.ok ((owner, s.approvals_by_id token_id),
          { s.internal_transfer_unguarded token_id owner receiver_id with
            approvals_by_id := fun t =>
              if t = token_id then []
              else (s.internal_transfer_unguarded token_id owner receiver_id).approvals_by_id t })
    else Except.error Err.NotAuthorized

/-- `nft_transfer`: the synchronous transfer entry point generated by
`impl_non_fungible_token_core!`, with the sender being the predecessor
account. -/
def Contract.nft_transfer (c : Contract) (sender_id receiver_id : AccountId)
    (token_id : TokenId) (approval_id : Option Nat) : Except Err Contract :=
  (c.tokens.internal_transfer sender_id receiver_id token_id approval_id).map
    (fun r => { c with tokens := r.2 })

/-- Modelled from the spec: the commit phase of `nft_transfer_call` — the same
ownership change as the synchronous transfer, additionally recording the
previous owner and the previous approval map for a possible revert. -/
def Contract.nft_transfer_call_commit (c : Contract)
    (sender_id receiver_id : AccountId) (token_id : TokenId)
    (approval_id : Option Nat) :
    Except Err ((AccountId × List (AccountId × Nat)) × Contract) :=
  (c.tokens.internal_transfer sender_id receiver_id token_id approval_id).map
    (fun r => (r.1, { c with tokens := r.2 }))

/-- Modelled from the spec: `nft_resolve_transfer`, the resolve phase of
`nft_transfer_call`.  `revert` is true when the receiver's acknowledgment
reported rejection, timed out or errored.  The revert restores the previous
owner and the previous approval map, but only if the token's current owner is
still the receiver; otherwise the later state is left intact. -/
def Contract.nft_resolve_transfer (c : Contract)
    (previous_owner_id receiver_id : AccountId) (token_id : TokenId)
    (approved_account_ids : List (AccountId × Nat)) (revert : Bool) : Contract :=
  if revert = false then c
  else
    match alookup c.tokens.owner_by_id token_id with
    | none => c
    | some current_owner =>
      if current_owner = receiver_id then
        { c with
          tokens :=
            { c.tokens.internal_transfer_unguarded token_id receiver_id previous_owner_id with
              approvals_by_id := fun t =>
                if t = token_id then approved_account_ids
                else (c.tokens.internal_transfer_unguarded token_id receiver_id
                  previous_owner_id).approvals_by_id t } }
      else c

/-- Modelled from the spec: `burn(token_id, owner)` — removes the token from
the store, the enumeration sets and the approval ledger; fails with
`NotAuthorized` when `owner` does not match the current owner. -/
def NonFungibleToken.burn (s : NonFungibleToken) (token_id : TokenId)
    (owner : AccountId) : Except Err NonFungibleToken :=
  match alookup s.owner_by_id token_id with
  | none => Except.error Err.TokenNotFound
  | some current_owner =>
    if current_owner = owner then
      Except.ok
        { s with
          owner_by_id := s.owner_by_id.filter (fun p => p.1 ≠ token_id)
          token_metadata_by_id := fun t =>
            if t = token_id then none else s.token_metadata_by_id t
          tokens_per_owner := fun a =>
            if a = current_owner then (s.tokens_per_owner a).filter (fun t => t ≠ token_id)
            else s.tokens_per_owner a
          approvals_by_id := fun t => if t = token_id then [] else s.approvals_by_id t }
    else Except.error Err.NotAuthorized

/-- `nft_supply_for_owner` (enumeration): the size of the owner's enumeration
set. -/
def Contract.nft_supply_for_owner (c : Contract) (account_id : AccountId) : Nat :=
  (c.tokens.tokens_per_owner account_id).length

/-- `nft_total_supply` (enumeration): the number of tokens in the store. -/
def Contract.nft_total_supply (c : Contract) : Nat :=
  c.tokens.owner_by_id.length

/-- The token ids whose `owner_by_id` entry names `a` — the ground truth the
enumeration sets must agree with. -/
def ownedTokens (s : NonFungibleToken) (a : AccountId) : List TokenId :=
  (s.owner_by_id.filter (fun p => p.2 = a)).map Prod.fst

/-- The ledger-mutating operations a caller can interleave: mint, synchronous
transfer, the commit phase of transfer-and-notify, its resolve callback, and
burn. -/
inductive Op where
  | mint (env : Env) (token_id : TokenId) (receiver_id : AccountId) (md : TokenMetadata)
  | transfer (sender_id receiver_id : AccountId) (token_id : TokenId) (approval_id : Option Nat)
  | transferCallCommit (sender_id receiver_id : AccountId) (token_id : TokenId) (approval_id : Option Nat)
  | resolveTransfer (previous_owner_id receiver_id : AccountId) (token_id : TokenId)
      (approved_account_ids : List (AccountId × Nat)) (revert : Bool)
  | burn (token_id : TokenId) (caller : AccountId)

/-- Apply one operation; a failing call panics and the host rolls its effects
back, so the state is unchanged on error. -/
def applyOp (c : Contract) : Op → Contract
  | Op.mint env token_id receiver_id md =>
    match c.nft_mint env token_id receiver_id md with
    | Except.ok r => r.2
    | Except.error _ => c
  | Op.transfer sender_id receiver_id token_id approval_id =>
    match c.nft_transfer sender_id receiver_id token_id approval_id with
    | Except.ok c2 => c2
    | Except.error _ => c
  | Op.transferCallCommit sender_id receiver_id token_id approval_id =>
    match c.nft_transfer_call_commit sender_id receiver_id token_id approval_id with
    | Except.ok r => r.2
    | Except.error _ => c
  | Op.resolveTransfer previous_owner_id receiver_id token_id approved revert =>
    c.nft_resolve_transfer previous_owner_id receiver_id token_id approved revert
  | Op.burn token_id caller =>
    match c.tokens.burn token_id caller with
    | Except.ok s => { c with tokens := s }
    | Except.error _ => c

/-- Apply a sequence of operations from left to right. -/
def applyOps (c : Contract) (ops : List Op) : Contract :=
  ops.foldl applyOp c

/-- Modelled from the spec: the Storage Accountant wrapping a mutating call.
It measures storage before and after the mutation; growth must be covered by
the attached payment (otherwise the call fails with `InsufficientDeposit` and
the mutation is discarded), and the result carries the refund returned to the
caller: the unused excess on growth, payment plus the released cost on
shrinkage. -/
def run_with_storage_accounting (measure_used_storage : Contract → Nat)
    (storage_cost_per_byte : Nat) (attached_payment : Nat)
    (mutation : Contract → Except Err Contract) (c : Contract) :
    Except Err (Contract × Nat) :=
  match mutation c with
  | Except.error e => Except.error e
  | Except.ok c2 =>
    if measure_used_storage c < measure_used_storage c2 then
      if attached_payment <
          (measure_used_storage c2 - measure_used_storage c) * storage_cost_per_byte then
        Except.error Err.InsufficientDeposit
      else
        Except.ok (c2, attached_payment -
          (measure_used_storage c2 - measure_used_storage c) * storage_cost_per_byte)
    else
      Except.ok (c2, attached_payment +
        (measure_used_storage c - measure_used_storage c2) * storage_cost_per_byte)

/-- The state after a metered mutation: on failure the host discards the
mutation, so the prior state survives. -/
def applyMetered (measure_used_storage : Contract → Nat)
    (storage_cost_per_byte : Nat) (attached_payment : Nat)
    (mutation : Contract → Except Err Contract) (c : Contract) : Contract :=
  match run_with_storage_accounting measure_used_storage storage_cost_per_byte
      attached_payment mutation c with
  | Except.ok r => r.1
  | Except.error _ => c

/-- Whether a call succeeded. -/
def isOkE {α : Type} : Except Err α → Bool
  | Except.ok _ => true
  | Except.error _ => false

/-- The state after `add_whitelist_account`; a panic rolls the call back. -/
def applyAdd (c : Contract) (env : Env) (acct : AccountId) : Contract :=
  match c.add_whitelist_account env acct with
  | Except.ok r => r.2
  | Except.error _ => c

/-- The state after `remove_whitelist_account`; a panic rolls the call back. -/
def applyRemove (c : Contract) (env : Env) (acct : AccountId) : Contract :=
  match c.remove_whitelist_account env acct with
  | Except.ok r => r.2
  | Except.error _ => c

/-- The state after `change_nft_approval_status`; a panic rolls the call
back. -/
def applyChange (c : Contract) (env : Env) (sv : String) : Contract :=
  match c.change_nft_approval_status env sv with
  | Except.ok c2 => c2
  | Except.error _ => c

/-- A call from the contract account to itself (the configuration in which
the administrative assertions pass). -/
def envSelf : Env where
  current_account_id := ("qstn.near")
  predecessor_account_id := ("qstn.near")

/-- A call arriving from the unrelated account "alice". -/
def envAlice : Env where
  current_account_id := ("qstn.near")
  predecessor_account_id := ("alice")

/-- A call arriving from the unrelated account "carol". -/
def envCarol : Env where
  current_account_id := ("qstn.near")
  predecessor_account_id := ("carol")

/-- A call arriving from "bob". -/
def envBob : Env where
  current_account_id := ("qstn.near")
  predecessor_account_id := ("bob")

/-- Sample per-token metadata. -/
def md0 : TokenMetadata where
  title := some ("Token One")
  description := none
  media := none

/-- The freshly initialized contract with `owner_id` "alice". -/
def cInit : Contract := Contract.initState ("alice") default_meta

/-- `cInit` with "bob" whitelisted twice (duplicates are permitted). -/
def cDup : Contract := { cInit with whitelist_accounts := [("bob"), ("bob")] }

/-- `cInit` with policy `Whitelist` and "bob" whitelisted. -/
def cWl : Contract :=
  { cInit with
    mint_approval_status := Status.Whitelist
    whitelist_accounts := [("bob")] }

/-- The state after the contract account mints token "t1" to "alice". -/
def cT1 : Contract := applyOp cInit (Op.mint envSelf ("t1") ("alice") md0)

/-- A sample storage measure: the persisted whitelist length. -/
def measureWl (c : Contract) : Nat := c.whitelist_accounts.length

/-- A sample storage-growing mutation: push "bob" onto the whitelist. -/
def growMut (c : Contract) : Except Err Contract :=
  Except.ok { c with whitelist_accounts := c.whitelist_accounts ++ [("bob")] }

/-- The consistency invariant between the Token Store and the Enumeration
Index: ownership keys are unique, every per-owner set is duplicate-free, and a
token id sits in an account's set exactly when that account is its current
owner. -/
def Consistent (s : NonFungibleToken) : Prop :=
  (s.owner_by_id.map Prod.fst).Nodup ∧
  (∀ a : AccountId, (s.tokens_per_owner a).Nodup) ∧
  (∀ (a : AccountId) (t : TokenId),
    t ∈ s.tokens_per_owner a ↔ alookup s.owner_by_id t = some a)
theorem alookup_append_left {α β : Type} [DecidableEq α] {l₁ : List (α × β)}
    (l₂ : List (α × β)) {k : α} {v : β} (h : alookup l₁ k = some v) :
    alookup (l₁ ++ l₂) k = some v := by
  induction l₁ with
  | nil => simp [alookup] at h
  | cons p rest ih =>
    rw [List.cons_append, alookup]
    rw [alookup] at h
    by_cases hp : p.1 = k
    · rw [if_pos hp] at h ⊢
      exact h
    · rw [if_neg hp] at h ⊢
      exact ih h

theorem alookup_append_right {α β : Type} [DecidableEq α] {l₁ : List (α × β)}
    (l₂ : List (α × β)) {k : α} (h : alookup l₁ k = none) :
    alookup (l₁ ++ l₂) k = alookup l₂ k := by
  induction l₁ with
  | nil => rfl
  | cons p rest ih =>
    rw [List.cons_append, alookup]
    rw [alookup] at h
    by_cases hp : p.1 = k
    · rw [if_pos hp] at h
      exact absurd h (by simp)
    · rw [if_neg hp] at h ⊢
      exact ih h

theorem alookup_eq_none_iff {α β : Type} [DecidableEq α] (l : List (α × β)) (k : α) :
    alookup l k = none ↔ k ∉ l.map Prod.fst := by
  induction l with
  | nil => simp [alookup]
  | cons p rest ih =>
    by_cases h : p.1 = k
    · simp [alookup, h]
    · rw [alookup, if_neg h, ih]
      simp [Ne.symm h]

theorem alookup_eq_some_iff_mem {α β : Type} [DecidableEq α] {l : List (α × β)}
    (hnd : (l.map Prod.fst).Nodup) (k : α) (v : β) :
    alookup l k = some v ↔ (k, v) ∈ l := by
  induction l with
  | nil => simp [alookup]
  | cons p rest ih =>
    obtain ⟨a, b⟩ := p
    simp only [List.map_cons, List.nodup_cons, List.mem_map] at hnd
    by_cases h : a = k
    · subst h
      constructor
      · intro hv
        rw [alookup, if_pos rfl] at hv
        rw [← Option.some.inj hv]
        exact List.mem_cons_self _ _
      · intro hm
        rcases List.mem_cons.1 hm with he | hm2
        · have hv : v = b := congrArg Prod.snd he
          rw [alookup, if_pos rfl, hv]
        · exact absurd ⟨(a, v), hm2, rfl⟩ hnd.1
    · rw [alookup, if_neg h, ih hnd.2]
      constructor
      · exact fun hm => List.mem_cons_of_mem _ hm
      · intro hm
        rcases List.mem_cons.1 hm with he | hm2
        · exact absurd (congrArg Prod.fst he) (fun hh => h hh.symm)
        · exact hm2

theorem map_fst_setOwner (l : List (TokenId × AccountId)) (token_id : TokenId)
    (o : AccountId) : (setOwner l token_id o).map Prod.fst = l.map Prod.fst := by
  unfold setOwner
  rw [List.map_map]
  refine List.map_congr_left ?_
  intro p _
  by_cases h : p.1 = token_id <;> simp [h]

theorem alookup_setOwner (l : List (TokenId × AccountId)) (token_id : TokenId)
    (o : AccountId) (t : TokenId) :
    alookup (setOwner l token_id o) t =
      if t = token_id then (alookup l t).map (fun _ => o) else alookup l t := by
  induction l with
  | nil => by_cases h : t = token_id <;> simp [setOwner, alookup, h]
  | cons p rest ih =>
    have hcons : setOwner (p :: rest) token_id o =
        (if p.1 = token_id then (p.1, o) else p) :: setOwner rest token_id o := rfl
    rw [hcons]
    by_cases h1 : p.1 = token_id
    · rw [if_pos h1]
      by_cases h2 : p.1 = t
      · have h3 : t = token_id := h2.symm.trans h1
        simp [alookup, h2, h3]
      · simp [alookup, h2, ih]
    · rw [if_neg h1]
      by_cases h2 : p.1 = t
      · have h3 : ¬t = token_id := fun hh => h1 (h2.trans hh)
        simp [alookup, h2, h3]
      · simp [alookup, h2, ih]

theorem alookup_filter_ne (l : List (TokenId × AccountId)) (token_id t : TokenId) :
    alookup (l.filter (fun p => p.1 ≠ token_id)) t =
      if t = token_id then none else alookup l t := by
  induction l with
  | nil => by_cases h : t = token_id <;> simp [alookup, h]
  | cons p rest ih =>
    by_cases h1 : p.1 = token_id <;> by_cases h2 : p.1 = t <;>
      simp_all [alookup, List.filter_cons]

theorem mem_movePerOwner (f : AccountId → List TokenId) (token_id : TokenId)
    (old_owner new_owner a : AccountId) (t : TokenId) :
    t ∈ movePerOwner f token_id old_owner new_owner a ↔
      ((a = new_owner ∧ t = token_id) ∨
        (t ∈ f a ∧ ¬(a = old_owner ∧ t = token_id))) := by
  unfold movePerOwner
  split_ifs with h2 h1 h1 <;> by_cases h3 : t = token_id <;>
    simp_all [List.mem_filter, List.mem_append]

theorem nodup_movePerOwner (f : AccountId → List TokenId) (token_id : TokenId)
    (old_owner new_owner : AccountId) (hf : ∀ a, (f a).Nodup)
    (ho : ∀ a, token_id ∈ f a → a = old_owner) (a : AccountId) :
    (movePerOwner f token_id old_owner new_owner a).Nodup := by
  unfold movePerOwner
  split_ifs with h2 h1 h1
  · refine ((hf a).filter _).append (List.nodup_singleton _) ?_
    rw [List.disjoint_singleton]
    simp [List.mem_filter]
  · refine (hf a).append (List.nodup_singleton _) ?_
    rw [List.disjoint_singleton]
    intro hm
    exact h1 (ho a hm)
  · exact (hf a).filter _
  · exact hf a

theorem consistent_internal_mint {s : NonFungibleToken} {token_id : TokenId}
    {receiver_id : AccountId} {md : TokenMetadata} {tk : Token}
    {s2 : NonFungibleToken} (hc : Consistent s)
    (h : s.internal_mint token_id receiver_id md = Except.ok (tk, s2)) :
    Consistent s2 := by
  unfold NonFungibleToken.internal_mint at h
  split at h
  next => exact absurd h (by simp)
  next hl =>
    simp only [Except.ok.injEq, Prod.mk.injEq] at h
    obtain ⟨-, rfl⟩ := h
    have hfresh : token_id ∉ s.owner_by_id.map Prod.fst :=
      (alookup_eq_none_iff _ _).1 hl
    have hnotin : ∀ b, token_id ∉ s.tokens_per_owner b := by
      intro b hm
      rw [hc.2.2 b token_id, hl] at hm
      exact absurd hm (by simp)
    refine ⟨?_, ?_, ?_⟩
    · show ((s.owner_by_id ++ [(token_id, receiver_id)]).map Prod.fst).Nodup
      simp only [List.map_append, List.map_cons, List.map_nil]
      exact hc.1.append (List.nodup_singleton _) (List.disjoint_singleton.2 hfresh)
    · intro a
      show (if a = receiver_id then s.tokens_per_owner a ++ [token_id]
          else s.tokens_per_owner a).Nodup
      by_cases ha : a = receiver_id
      · rw [if_pos ha]
        exact (hc.2.1 a).append (List.nodup_singleton _)
          (List.disjoint_singleton.2 (hnotin a))
      · rw [if_neg ha]
        exact hc.2.1 a
    · intro a t
      show (t ∈ if a = receiver_id then s.tokens_per_owner a ++ [token_id]
          else s.tokens_per_owner a) ↔
        alookup (s.owner_by_id ++ [(token_id, receiver_id)]) t = some a
      by_cases ht : t = token_id
      · subst ht
        rw [alookup_append_right _ hl]
        by_cases ha : a = receiver_id
        · subst ha
          simp [alookup, List.mem_append]
        · rw [if_neg ha]
          simp only [alookup, if_pos rfl]
          exact iff_of_false (hnotin a) (fun hh => ha (Option.some.inj hh).symm)
      · have hsingle : alookup [(token_id, receiver_id)] t = none := by
          simp [alookup, Ne.symm ht]
        have halook : alookup (s.owner_by_id ++ [(token_id, receiver_id)]) t =
            alookup s.owner_by_id t := by
          cases hx : alookup s.owner_by_id t with
          | some v => exact alookup_append_left _ hx
          | none => rw [alookup_append_right _ hx, hsingle]
        rw [halook]
        by_cases ha : a = receiver_id
        · rw [if_pos ha, List.mem_append]
          simp only [List.mem_singleton, ht, or_false]
          exact hc.2.2 a t
        · rw [if_neg ha]
          exact hc.2.2 a t

theorem consistent_unguarded {s : NonFungibleToken} {token_id : TokenId}
    {old_owner : AccountId} (new_owner : AccountId) (hc : Consistent s)
    (hl : alookup s.owner_by_id token_id = some old_owner) :
    Consistent (s.internal_transfer_unguarded token_id old_owner new_owner) := by
  have hmem : ∀ a, token_id ∈ s.tokens_per_owner a → a = old_owner := by
    intro a hm
    rw [hc.2.2 a token_id, hl] at hm
    exact (Option.some.inj hm).symm
  refine ⟨?_, ?_, ?_⟩
  · show ((setOwner s.owner_by_id token_id new_owner).map Prod.fst).Nodup
    rw [map_fst_setOwner]
    exact hc.1
  · exact nodup_movePerOwner _ _ _ _ hc.2.1 hmem
  · intro a t
    show t ∈ movePerOwner s.tokens_per_owner token_id old_owner new_owner a ↔
      alookup (setOwner s.owner_by_id token_id new_owner) t = some a
    rw [mem_movePerOwner, alookup_setOwner]
    by_cases ht : t = token_id
    · subst ht
      rw [hl, if_pos rfl]
      constructor
      · rintro (⟨ha2, -⟩ | ⟨hm, hno⟩)
        · rw [ha2]
          rfl
        · exact absurd ⟨hmem a hm, rfl⟩ hno
      · intro hv
        exact Or.inl ⟨(Option.some.inj hv).symm, rfl⟩
    · rw [if_neg ht]
      simp only [ht, and_false, false_or, not_false_eq_true, and_true]
      exact hc.2.2 a t

theorem consistent_burn {s : NonFungibleToken} {token_id : TokenId}
    {caller : AccountId} {s2 : NonFungibleToken} (hc : Consistent s)
    (h : s.burn token_id caller = Except.ok s2) : Consistent s2 := by
  unfold NonFungibleToken.burn at h
  split at h
  next => exact absurd h (by simp)
  next current_owner hl =>
    split at h
    next he =>
      simp only [Except.ok.injEq] at h
      subst h
      refine ⟨?_, ?_, ?_⟩
      · show ((s.owner_by_id.filter (fun p => p.1 ≠ token_id)).map Prod.fst).Nodup
        exact ((List.filter_sublist _).map Prod.fst).nodup hc.1
      · intro a
        show (if a = current_owner then (s.tokens_per_owner a).filter (fun t => t ≠ token_id)
            else s.tokens_per_owner a).Nodup
        by_cases ha : a = current_owner
        · rw [if_pos ha]
          exact (hc.2.1 a).filter _
        · rw [if_neg ha]
          exact hc.2.1 a
      · intro a t
        show (t ∈ if a = current_owner then
            (s.tokens_per_owner a).filter (fun x => x ≠ token_id)
            else s.tokens_per_owner a) ↔
          alookup (s.owner_by_id.filter (fun p => p.1 ≠ token_id)) t = some a
        rw [alookup_filter_ne]
        by_cases ht : t = token_id
        · rw [if_pos ht]
          refine iff_of_false ?_ (by simp)
          by_cases ha : a = current_owner
          · rw [if_pos ha]
            simp [List.mem_filter, ht]
          · rw [if_neg ha]
            intro hm
            rw [hc.2.2 a t, ht, hl] at hm
            exact ha (Option.some.inj hm).symm
        · rw [if_neg ht]
          by_cases ha : a = current_owner
          · rw [if_pos ha]
            simp only [List.mem_filter, decide_eq_true_eq]
            rw [and_iff_left ht]
            exact hc.2.2 a t
          · rw [if_neg ha]
            exact hc.2.2 a t
    next => exact absurd h (by simp)

theorem consistent_internal_transfer {s : NonFungibleToken}
    {sender_id receiver_id : AccountId} {token_id : TokenId} {approval_id : Option Nat}
    {pr : AccountId × List (AccountId × Nat)} {s2 : NonFungibleToken}
    (hc : Consistent s)
    (h : s.internal_transfer sender_id receiver_id token_id approval_id =
      Except.ok (pr, s2)) : Consistent s2 := by
  unfold NonFungibleToken.internal_transfer at h
  split at h
  next => exact absurd h (by simp)
  next owner hl =>
    split at h
    · split at h
      · exact absurd h (by simp)
      · simp only [Except.ok.injEq, Prod.mk.injEq] at h
        obtain ⟨-, rfl⟩ := h
        have hu := consistent_unguarded receiver_id hc hl
        exact ⟨hu.1, hu.2.1, hu.2.2⟩
    · exact absurd h (by simp)

theorem nft_mint_eq (c : Contract) (env : Env) (token_id : TokenId)
    (receiver_id : AccountId) (md : TokenMetadata) :
    c.nft_mint env token_id receiver_id md = Except.error Err.NotWhitelisted ∨
    c.nft_mint env token_id receiver_id md = Except.error Err.MintingDisabled ∨
    c.nft_mint env token_id receiver_id md =
      (c.tokens.internal_mint token_id receiver_id md).map
        (fun r => (r.1, { c with tokens := r.2 })) := by
  unfold Contract.nft_mint
  split
  · exact Or.inr (Or.inr rfl)
  · split
    · exact Or.inr (Or.inr rfl)
    · split
      · exact Or.inr (Or.inr rfl)
      · exact Or.inl rfl
    · exact Or.inr (Or.inl rfl)

theorem resolve_revert_eq {c2 : Contract} {receiver_id : AccountId} {token_id : TokenId}
    (previous_owner_id : AccountId) (appr : List (AccountId × Nat))
    (h2 : alookup c2.tokens.owner_by_id token_id = some receiver_id) :
    c2.nft_resolve_transfer previous_owner_id receiver_id token_id appr true =
      { c2 with tokens :=
        { c2.tokens.internal_transfer_unguarded token_id receiver_id previous_owner_id with
          approvals_by_id := fun t =>
            if t = token_id then appr
            else (c2.tokens.internal_transfer_unguarded token_id receiver_id
              previous_owner_id).approvals_by_id t } } := by
  unfold Contract.nft_resolve_transfer
  rw [if_neg (fun hh => Bool.noConfusion hh)]
  simp only [h2]
  simp

theorem resolve_skip_eq {c2 : Contract} {receiver_id : AccountId} {token_id : TokenId}
    (previous_owner_id : AccountId) (appr : List (AccountId × Nat))
    (h2 : alookup c2.tokens.owner_by_id token_id ≠ some receiver_id) :
    c2.nft_resolve_transfer previous_owner_id receiver_id token_id appr true = c2 := by
  unfold Contract.nft_resolve_transfer
  rw [if_neg (fun hh => Bool.noConfusion hh)]
  cases hx : alookup c2.tokens.owner_by_id token_id with
  | none => simp only [hx]
  | some cur =>
    simp only [hx]
    rw [if_neg (fun hh => h2 (by rw [hx, hh]))]

theorem consistent_resolve {c : Contract} (hc : Consistent c.tokens)
    (previous_owner_id receiver_id : AccountId) (token_id : TokenId)
    (approved_account_ids : List (AccountId × Nat)) (revert : Bool) :
    Consistent (c.nft_resolve_transfer previous_owner_id receiver_id token_id
      approved_account_ids revert).tokens := by
  unfold Contract.nft_resolve_transfer
  split
  · exact hc
  · split
    · exact hc
    · split
      next current_owner hl he =>
        subst he
        have hu := consistent_unguarded previous_owner_id hc hl
        exact ⟨hu.1, hu.2.1, hu.2.2⟩
      next => exact hc

theorem consistent_applyOp {c : Contract} (hc : Consistent c.tokens) (op : Op) :
    Consistent (applyOp c op).tokens := by
  cases op with
  | mint env token_id receiver_id md =>
    show Consistent (match c.nft_mint env token_id receiver_id md with
      | Except.ok r => r.2
      | Except.error _ => c).tokens
    rcases nft_mint_eq c env token_id receiver_id md with he | he | he
    · rw [he]
      exact hc
    · rw [he]
      exact hc
    · rw [he]
      cases hint : c.tokens.internal_mint token_id receiver_id md with
      | error e => exact hc
      | ok p =>
        show Consistent ({ c with tokens := p.2 }).tokens
        exact consistent_internal_mint hc hint
  | transfer sender_id receiver_id token_id approval_id =>
    show Consistent (match c.nft_transfer sender_id receiver_id token_id approval_id with
      | Except.ok c2 => c2
      | Except.error _ => c).tokens
    unfold Contract.nft_transfer
    cases hint : c.tokens.internal_transfer sender_id receiver_id token_id approval_id with
    | error e => exact hc
    | ok r =>
      show Consistent ({ c with tokens := r.2 }).tokens
      exact consistent_internal_transfer hc hint
  | transferCallCommit sender_id receiver_id token_id approval_id =>
    show Consistent
      (match c.nft_transfer_call_commit sender_id receiver_id token_id approval_id with
      | Except.ok r => r.2
      | Except.error _ => c).tokens
    unfold Contract.nft_transfer_call_commit
    cases hint : c.tokens.internal_transfer sender_id receiver_id token_id approval_id with
    | error e => exact hc
    | ok r =>
      show Consistent ({ c with tokens := r.2 }).tokens
      exact consistent_internal_transfer hc hint
  | resolveTransfer previous_owner_id receiver_id token_id appr revert =>
    exact consistent_resolve hc previous_owner_id receiver_id token_id appr revert
  | burn token_id caller =>
    show Consistent (match c.tokens.burn token_id caller with
      | Except.ok s => { c with tokens := s }
      | Except.error _ => c).tokens
    cases hint : c.tokens.burn token_id caller with
    | error e => exact hc
    | ok s2 => exact consistent_burn hc hint

theorem consistent_applyOps {c : Contract} (hc : Consistent c.tokens) (ops : List Op) :
    Consistent (applyOps c ops).tokens := by
  induction ops generalizing c with
  | nil => exact hc
  | cons op rest ih => exact ih (consistent_applyOp hc op)

theorem supply_eq_owned {s : NonFungibleToken} (hc : Consistent s) (a : AccountId) :
    (s.tokens_per_owner a).length = (ownedTokens s a).length := by
  have hnd2 : (ownedTokens s a).Nodup :=
    ((List.filter_sublist _).map Prod.fst).nodup hc.1
  have hmem : ∀ t, t ∈ s.tokens_per_owner a ↔ t ∈ ownedTokens s a := by
    intro t
    rw [hc.2.2 a t, alookup_eq_some_iff_mem hc.1]
    unfold ownedTokens
    simp only [List.mem_map, List.mem_filter, decide_eq_true_eq]
    constructor
    · intro hm
      exact ⟨(t, a), ⟨hm, rfl⟩, rfl⟩
    · rintro ⟨p, ⟨hp, hpa⟩, hpt⟩
      have hq : p = (t, a) := Prod.ext hpt hpa
      rw [← hq]
      exact hp
  exact List.Perm.length_eq ((List.perm_ext_iff_of_nodup (hc.2.1 a) hnd2).2 hmem)

theorem erase_first (acct : AccountId) (w₁ : List AccountId) :
    ∀ w₂ : List AccountId, acct ∉ w₁ →
      (w₁ ++ acct :: w₂).erase acct = w₁ ++ w₂ := by
  induction w₁ with
  | nil =>
    intro w₂ _
    simp [List.erase_cons_head]
  | cons b w₁ ih =>
    intro w₂ h
    have hb : b ≠ acct := fun hh => h (List.mem_cons.2 (Or.inl hh.symm))
    rw [List.cons_append, List.erase_cons_tail (not_beq_of_ne hb),
      ih w₂ (fun hm => h (List.mem_cons.2 (Or.inr hm))), List.cons_append]

/-- C1: for every call to `nft_mint` the mint gate is evaluated in this
order: a caller equal to the contract's own account mints unconditionally,
regardless of policy; otherwise policy `All` (Open) mints; otherwise policy
`Whitelist` (Whitelisted) mints iff the caller is in the whitelist set and
fails with `NotWhitelisted` otherwise; otherwise (`None`, Closed) the call
fails with `MintingDisabled`. -/
theorem claim_C1_mint_gate (c : Contract) (env : Env) (token_id : TokenId)
    (receiver_id : AccountId) (md : TokenMetadata) :
    (env.current_account_id = env.predecessor_account_id →
      c.nft_mint env token_id receiver_id md =
        (c.tokens.internal_mint token_id receiver_id md).map
          (fun r => (r.1, { c with tokens := r.2 }))) ∧
    (env.current_account_id ≠ env.predecessor_account_id →
      (c.mint_approval_status = Status.All →
        c.nft_mint env token_id receiver_id md =
          (c.tokens.internal_mint token_id receiver_id md).map
            (fun r => (r.1, { c with tokens := r.2 }))) ∧
      (c.mint_approval_status = Status.Whitelist →
        (env.predecessor_account_id ∈ c.whitelist_accounts →
          c.nft_mint env token_id receiver_id md =
            (c.tokens.internal_mint token_id receiver_id md).map
              (fun r => (r.1, { c with tokens := r.2 }))) ∧
        (env.predecessor_account_id ∉ c.whitelist_accounts →
          c.nft_mint env token_id receiver_id md = Except.error Err.NotWhitelisted)) ∧
      (c.mint_approval_status = Status.None →
        c.nft_mint env token_id receiver_id md = Except.error Err.MintingDisabled)) := by
  constructor
  · intro h
    simp [Contract.nft_mint, h]
  · intro h
    refine ⟨?_, ?_, ?_⟩
    · intro hs
      simp [Contract.nft_mint, h, hs]
    · intro hs
      constructor
      · intro hw
        simp [Contract.nft_mint, h, hs, hw]
      · intro hw
        simp [Contract.nft_mint, h, hs, hw]
    · intro hs
      simp [Contract.nft_mint, h, hs]

/-- Witness for C1: with policy Closed a non-owner mint fails with
`MintingDisabled`; with policy Whitelisted, non-member "carol" fails with
`NotWhitelisted` while the contract account itself mints even though it is
not whitelisted; and member "bob" mints. -/
theorem claim_C1_mint_gate_witness :
    cInit.nft_mint envAlice ("t1") ("alice") md0 = Except.error Err.MintingDisabled ∧
    cWl.nft_mint envCarol ("t2") ("carol") md0 = Except.error Err.NotWhitelisted ∧
    isOkE (cWl.nft_mint envSelf ("t2") ("bob") md0) = true ∧
    isOkE (cWl.nft_mint envBob ("t2") ("bob") md0) = true := by
  refine ⟨?_, ?_, ?_, ?_⟩
  · exact ((claim_C1_mint_gate cInit envAlice ("t1") ("alice") md0).2
      (by decide)).2.2 (by decide)
  · exact (((claim_C1_mint_gate cWl envCarol ("t2") ("carol") md0).2
      (by decide)).2.1 (by decide)).2 (by decide)
  · have h := (claim_C1_mint_gate cWl envSelf ("t2") ("bob") md0).1 (by decide)
    rw [h]
    rfl
  · have h := (((claim_C1_mint_gate cWl envBob ("t2") ("bob") md0).2
      (by decide)).2.1 (by decide)).1 (by decide)
    rw [h]
    rfl

/-- C2 counterexample: the administrative authorization check is
`current_account_id == predecessor_account_id`, not a comparison with the
`owner_id` supplied at initialization.  With `owner_id` "alice" and contract
account "qstn.near", a call from "qstn.near" (which is not the initialization
owner) succeeds and mutates the whitelist — contradicting the claim that every
caller other than the initialization owner fails with no state change. -/
theorem claim_C2_counterexample :
    cInit.tokens.owner_id = ("alice") ∧
    envSelf.predecessor_account_id ≠ ("alice") ∧
    isOkE (cInit.add_whitelist_account envSelf ("bob")) = true ∧
    (applyAdd cInit envSelf ("bob")).whitelist_accounts = [("bob")] ∧
    cInit.whitelist_accounts = [] := by
  refine ⟨rfl, by decide, rfl, rfl, rfl⟩

/-- C2 (amended): the three administrative calls succeed only when the caller
(the predecessor account) equals the contract's own account
(`current_account_id`); for every other caller — including the `owner_id`
supplied at initialization when it differs from the contract account — each
call fails and leaves the policy state and the whitelist unchanged. -/
theorem claim_C2_admin_authorization (c : Contract) (env : Env) (acct : AccountId)
    (sv : String) :
    (env.current_account_id ≠ env.predecessor_account_id →
      c.add_whitelist_account env acct = Except.error Err.OwnerOnly ∧
      c.remove_whitelist_account env acct = Except.error Err.OwnerOnly ∧
      c.change_nft_approval_status env sv = Except.error Err.OwnerOnly ∧
      applyAdd c env acct = c ∧ applyRemove c env acct = c ∧ applyChange c env sv = c) ∧
    (env.current_account_id = env.predecessor_account_id →
      isOkE (c.add_whitelist_account env acct) = true ∧
      isOkE (c.remove_whitelist_account env acct) = true) := by
  constructor
  · intro h
    refine ⟨?_, ?_, ?_, ?_, ?_, ?_⟩ <;>
      simp [Contract.add_whitelist_account, Contract.remove_whitelist_account,
        Contract.change_nft_approval_status, applyAdd, applyRemove, applyChange, h]
  · intro h
    constructor <;>
      simp [Contract.add_whitelist_account, Contract.remove_whitelist_account, isOkE, h]

/-- Witness for C2 (amended): a call from "alice" (≠ contract account) fails
and changes nothing; a call from the contract account succeeds. -/
theorem claim_C2_admin_authorization_witness :
    cInit.add_whitelist_account envAlice ("bob") = Except.error Err.OwnerOnly ∧
    applyChange cInit envAlice ("all") = cInit ∧
    isOkE (cInit.add_whitelist_account envSelf ("bob")) = true := by
  have h1 := (claim_C2_admin_authorization cInit envAlice ("bob") ("all")).1 (by decide)
  have h2 := (claim_C2_admin_authorization cInit envSelf ("bob") ("all")).2 (by decide)
  exact ⟨h1.1, h1.2.2.2.2.2, h2.1⟩

/-- C4: for a mutation that grows measured storage, an attached payment below
(growth × cost per byte) makes the metered call fail with
`InsufficientDeposit` and the whole mutation is discarded (the resulting
state is the original one); with payment at least the required amount the
call succeeds and refunds exactly payment − required, retaining nothing. -/
theorem claim_C4_storage_accounting (measure_used_storage : Contract → Nat)
    (storage_cost_per_byte attached_payment : Nat)
    (mutation : Contract → Except Err Contract) (c c2 : Contract)
    (hok : mutation c = Except.ok c2)
    (hgrow : measure_used_storage c < measure_used_storage c2) :
    (attached_payment <
        (measure_used_storage c2 - measure_used_storage c) * storage_cost_per_byte →
      run_with_storage_accounting measure_used_storage storage_cost_per_byte
          attached_payment mutation c = Except.error Err.InsufficientDeposit ∧
      applyMetered measure_used_storage storage_cost_per_byte attached_payment
        mutation c = c) ∧
    ((measure_used_storage c2 - measure_used_storage c) * storage_cost_per_byte ≤
        attached_payment →
      run_with_storage_accounting measure_used_storage storage_cost_per_byte
          attached_payment mutation c =
        Except.ok (c2, attached_payment -
          (measure_used_storage c2 - measure_used_storage c) * storage_cost_per_byte)) := by
  constructor
  · intro hp
    have h1 : run_with_storage_accounting measure_used_storage storage_cost_per_byte
        attached_payment mutation c = Except.error Err.InsufficientDeposit := by
      unfold run_with_storage_accounting
      simp only [hok]
      rw [if_pos hgrow, if_pos hp]
    refine ⟨h1, ?_⟩
    unfold applyMetered
    rw [h1]
  · intro hp
    unfold run_with_storage_accounting
    simp only [hok]
    rw [if_pos hgrow, if_neg (not_lt.2 hp)]

/-- Witness for C4: growing the whitelist by one entry at 10 per byte with 5
attached fails with `InsufficientDeposit` and leaves the state unchanged;
with 25 attached it succeeds and refunds 15. -/
theorem claim_C4_storage_accounting_witness :
    (run_with_storage_accounting measureWl 10 5 growMut cInit =
        Except.error Err.InsufficientDeposit ∧
      applyMetered measureWl 10 5 growMut cInit = cInit) ∧
    run_with_storage_accounting measureWl 10 25 growMut cInit =
      Except.ok ({ cInit with whitelist_accounts := [("bob")] }, 15) := by
  have h := claim_C4_storage_accounting measureWl 10 5 growMut cInit
    ({ cInit with whitelist_accounts := [("bob")] }) rfl (by decide)
  have h2 := claim_C4_storage_accounting measureWl 10 25 growMut cInit
    ({ cInit with whitelist_accounts := [("bob")] }) rfl (by decide)
  exact ⟨h.1 (by decide), h2.2 (by decide)⟩

/-- C5: for an authorized call, the literal "all" sets the policy to `All`
(Open), "whitelist" sets `Whitelist` (Whitelisted), "none" sets `None`
(Closed), and any other literal fails with `InvalidPolicyValue`, leaving the
policy unchanged. -/
theorem claim_C5_policy_literal (c : Contract) (env : Env) (sv : String)
    (h : env.current_account_id = env.predecessor_account_id) :
    (sv = ("all") → c.change_nft_approval_status env sv =
      Except.ok { c with mint_approval_status := Status.All }) ∧
    (sv = ("whitelist") → c.change_nft_approval_status env sv =
      Except.ok { c with mint_approval_status := Status.Whitelist }) ∧
    (sv = ("none") → c.change_nft_approval_status env sv =
      Except.ok { c with mint_approval_status := Status.None }) ∧
    (sv ≠ ("all") → sv ≠ ("whitelist") → sv ≠ ("none") →
      c.change_nft_approval_status env sv = Except.error Err.InvalidPolicyValue ∧
      applyChange c env sv = c ∧
      (applyChange c env sv).mint_approval_status = c.mint_approval_status) := by
  refine ⟨fun h1 => ?_, fun h1 => ?_, fun h1 => ?_, fun h1 h2 h3 => ?_⟩
  · simp [Contract.change_nft_approval_status, h, h1]
  · simp [Contract.change_nft_approval_status, h, h1]
  · simp [Contract.change_nft_approval_status, h, h1]
  · have he : c.change_nft_approval_status env sv = Except.error Err.InvalidPolicyValue := by
      simp [Contract.change_nft_approval_status, h, h1, h2, h3]
    refine ⟨he, ?_, ?_⟩ <;> simp [applyChange, he]

/-- Witness for C5: "all" opens the policy, "foo" is rejected with the policy
unchanged. -/
theorem claim_C5_policy_literal_witness :
    cInit.change_nft_approval_status envSelf ("all") =
      Except.ok { cInit with mint_approval_status := Status.All } ∧
    cInit.change_nft_approval_status envSelf ("foo") =
      Except.error Err.InvalidPolicyValue ∧
    (applyChange cInit envSelf ("foo")).mint_approval_status = Status.None := by
  have h1 := (claim_C5_policy_literal cInit envSelf ("all") rfl).1 rfl
  have h2 := (claim_C5_policy_literal cInit envSelf ("foo") rfl).2.2.2
    (by decide) (by decide) (by decide)
  exact ⟨h1, h2.1, h2.2.2⟩

/-- C6: for an authorized call, `add_whitelist_account` appends the account
even when it is already present (duplicates permitted); `remove_whitelist_account`
removes exactly the first matching entry, leaving later duplicates in place,
and is a no-op (not an error) when the account is absent. -/
theorem claim_C6_whitelist_dup_semantics (c : Contract) (env : Env) (acct : AccountId)
    (h : env.current_account_id = env.predecessor_account_id) :
    c.add_whitelist_account env acct =
      Except.ok (true, { c with whitelist_accounts := c.whitelist_accounts ++ [acct] }) ∧
    (∀ w₁ w₂ : List AccountId, c.whitelist_accounts = w₁ ++ acct :: w₂ → acct ∉ w₁ →
      c.remove_whitelist_account env acct =
        Except.ok (true, { c with whitelist_accounts := w₁ ++ w₂ })) ∧
    (acct ∉ c.whitelist_accounts →
      c.remove_whitelist_account env acct = Except.ok (true, c)) := by
  refine ⟨?_, ?_, ?_⟩
  · simp [Contract.add_whitelist_account, h]
  · intro w₁ w₂ hw hn
    unfold Contract.remove_whitelist_account
    rw [if_pos h, hw, erase_first acct w₁ w₂ hn]
  · intro hn
    unfold Contract.remove_whitelist_account
    rw [if_pos h, List.erase_of_not_mem hn]

/-- Witness for C6: adding "bob" to a whitelist already holding "bob" twice
appends a third copy; removing "bob" deletes only the first copy; removing
the absent "zoe" is a successful no-op. -/
theorem claim_C6_whitelist_dup_semantics_witness :
    cDup.add_whitelist_account envSelf ("bob") =
      Except.ok (true, { cDup with whitelist_accounts := [("bob"), ("bob"), ("bob")] }) ∧
    cDup.remove_whitelist_account envSelf ("bob") =
      Except.ok (true, { cDup with whitelist_accounts := [("bob")] }) ∧
    cInit.remove_whitelist_account envSelf ("zoe") = Except.ok (true, cInit) := by
  have h := claim_C6_whitelist_dup_semantics cDup envSelf ("bob") rfl
  have h2 := claim_C6_whitelist_dup_semantics cInit envSelf ("zoe") rfl
  exact ⟨h.1, h.2.1 [] [("bob")] rfl (by decide), h2.2.2 (by decide)⟩

/-- C7: a synchronous transfer whose sender is neither the token's current
owner nor the holder of a currently valid approval (matching the supplied
approval id when given) fails with `NotAuthorized` and leaves the ledger
state identical. -/
theorem claim_C7_unauthorized_transfer (c : Contract)
    (sender_id receiver_id : AccountId) (token_id : TokenId)
    (approval_id : Option Nat) (owner : AccountId)
    (hown : alookup c.tokens.owner_by_id token_id = some owner)
    (hns : sender_id ≠ owner)
    (hna : is_approved_sender (c.tokens.approvals_by_id token_id) sender_id
      approval_id = false) :
    c.nft_transfer sender_id receiver_id token_id approval_id =
      Except.error Err.NotAuthorized ∧
    applyOp c (Op.transfer sender_id receiver_id token_id approval_id) = c := by
  have h1 : c.tokens.internal_transfer sender_id receiver_id token_id approval_id =
      Except.error Err.NotAuthorized := by
    unfold NonFungibleToken.internal_transfer
    simp only [hown]
    rw [if_neg ?hcond]
    case hcond =>
      rintro (hh | hh)
      · exact hns hh
      · rw [hna] at hh
        exact Bool.false_ne_true hh
  have h2 : c.nft_transfer sender_id receiver_id token_id approval_id =
      Except.error Err.NotAuthorized := by
    unfold Contract.nft_transfer
    rw [h1]
    rfl
  refine ⟨h2, ?_⟩
  show (match c.nft_transfer sender_id receiver_id token_id approval_id with
    | Except.ok c2 => c2
    | Except.error _ => c) = c
  rw [h2]

/-- Witness for C7: "carol" (neither owner nor approved) cannot transfer
"t1" owned by "alice". -/
theorem claim_C7_unauthorized_transfer_witness :
    cT1.nft_transfer ("carol") ("bob") ("t1") none = Except.error Err.NotAuthorized ∧
    applyOp cT1 (Op.transfer ("carol") ("bob") ("t1") none) = cT1 :=
  claim_C7_unauthorized_transfer cT1 ("carol") ("bob") ("t1") none ("alice")
    (by decide) (by decide) (by decide)

/-- C8: a successful `new` produces the initial state — policy Closed
(`Status.None`), empty whitelist, and `nft_metadata` returning exactly the
supplied metadata; `new_default_meta` delegates to `new`; and any
initialization attempt on an already-initialized contract fails, so the
metadata is set once and never replaced. -/
theorem claim_C8_initialization (owner_id : AccountId) (metadata : NFTContractMetadata)
    (hv : metadata.assert_valid = true) :
    Contract.new false owner_id metadata =
      Except.ok (Contract.initState owner_id metadata) ∧
    (Contract.initState owner_id metadata).get_nft_approval_status = Status.None ∧
    (Contract.initState owner_id metadata).whitelist_accounts = [] ∧
    (Contract.initState owner_id metadata).nft_metadata = some metadata ∧
    (∀ se : Bool, Contract.new_default_meta se owner_id =
      Contract.new se owner_id default_meta) ∧
    (∀ (b : AccountId) (m2 : NFTContractMetadata),
      Contract.new true b m2 = Except.error Err.AlreadyInitialized) := by
  refine ⟨?_, rfl, rfl, rfl, fun se => rfl, fun b m2 => rfl⟩
  simp [Contract.new, hv]

/-- Witness for C8 at the default metadata. -/
theorem claim_C8_initialization_witness :
    Contract.new false ("alice") default_meta = Except.ok cInit ∧
    Contract.new true ("alice") default_meta = Except.error Err.AlreadyInitialized := by
  have h := claim_C8_initialization ("alice") default_meta (by decide)
  exact ⟨h.1, h.2.2.2.2.2 ("alice") default_meta⟩

/-- C10: for every authorized call, both whitelist mutators return `true`,
whether or not anything changed: adding a duplicate returns `true` and
removing an absent account also returns `true`. -/
theorem claim_C10_whitelist_returns_true (c : Contract) (env : Env) (acct : AccountId)
    (h : env.current_account_id = env.predecessor_account_id) :
    (c.add_whitelist_account env acct).map Prod.fst = Except.ok true ∧
    (c.remove_whitelist_account env acct).map Prod.fst = Except.ok true := by
  constructor
  · simp [Contract.add_whitelist_account, h, Except.map]
  · simp [Contract.remove_whitelist_account, h, Except.map]

/-- Witness for C10: a duplicate insertion and an absent removal both return
`true`. -/
theorem claim_C10_whitelist_returns_true_witness :
    (cDup.add_whitelist_account envSelf ("bob")).map Prod.fst = Except.ok true ∧
    (cInit.remove_whitelist_account envSelf ("zoe")).map Prod.fst = Except.ok true :=
  ⟨(claim_C10_whitelist_returns_true cDup envSelf ("bob") rfl).1,
    (claim_C10_whitelist_returns_true cInit envSelf ("zoe") rfl).2⟩

/-- C3: for a transfer-and-notify whose resolution reports rejection, timeout
or error (`revert = true`), the commit phase succeeds and records the
previous owner and previous approval map; the resolve phase restores
`owner_id` to the previous owner and restores the previous approval map, but
only when the token's current owner still equals the receiver; when the token
was moved again in the interim the revert is silently skipped and the later
state is left intact; and in the rejection case without interleaving the
final owner is the original sender and the receiver's per-owner enumeration
set does not contain the token. -/
theorem claim_C3_transfer_call_resolution (c : Contract)
    (sender_id receiver_id : AccountId) (token_id : TokenId)
    (hown : alookup c.tokens.owner_by_id token_id = some sender_id)
    (hne : sender_id ≠ receiver_id) :
    (c.nft_transfer_call_commit sender_id receiver_id token_id none).map Prod.fst =
      Except.ok (sender_id, c.tokens.approvals_by_id token_id) ∧
    (∀ c2 : Contract, alookup c2.tokens.owner_by_id token_id = some receiver_id →
      alookup (c2.nft_resolve_transfer sender_id receiver_id token_id
          (c.tokens.approvals_by_id token_id) true).tokens.owner_by_id token_id =
        some sender_id ∧
      (c2.nft_resolve_transfer sender_id receiver_id token_id
          (c.tokens.approvals_by_id token_id) true).tokens.approvals_by_id token_id =
        c.tokens.approvals_by_id token_id) ∧
    (∀ c2 : Contract, alookup c2.tokens.owner_by_id token_id ≠ some receiver_id →
      c2.nft_resolve_transfer sender_id receiver_id token_id
        (c.tokens.approvals_by_id token_id) true = c2) ∧
    alookup (applyOp c (Op.transferCallCommit sender_id receiver_id token_id
      none)).tokens.owner_by_id token_id = some receiver_id ∧
    alookup (Contract.nft_resolve_transfer
        (applyOp c (Op.transferCallCommit sender_id receiver_id token_id none))
        sender_id receiver_id token_id (c.tokens.approvals_by_id token_id)
        true).tokens.owner_by_id token_id = some sender_id ∧
    token_id ∉ (Contract.nft_resolve_transfer
        (applyOp c (Op.transferCallCommit sender_id receiver_id token_id none))
        sender_id receiver_id token_id (c.tokens.approvals_by_id token_id)
        true).tokens.tokens_per_owner receiver_id := by
  have hcommit : c.tokens.internal_transfer sender_id receiver_id token_id none =
      Except.ok ((sender_id, c.tokens.approvals_by_id token_id),
        { c.tokens.internal_transfer_unguarded token_id sender_id receiver_id with
          approvals_by_id := fun t =>
            if t = token_id then []
            else (c.tokens.internal_transfer_unguarded token_id sender_id
              receiver_id).approvals_by_id t }) := by
    unfold NonFungibleToken.internal_transfer
    simp [hown, hne]
  have happly : applyOp c (Op.transferCallCommit sender_id receiver_id token_id none) =
      { c with tokens :=
        { c.tokens.internal_transfer_unguarded token_id sender_id receiver_id with
          approvals_by_id := fun t =>
            if t = token_id then []
            else (c.tokens.internal_transfer_unguarded token_id sender_id
              receiver_id).approvals_by_id t } } := by
    show (match c.nft_transfer_call_commit sender_id receiver_id token_id none with
      | Except.ok r => r.2
      | Except.error _ => c) = _
    unfold Contract.nft_transfer_call_commit
    rw [hcommit]
    rfl
  have hownafter : alookup (applyOp c (Op.transferCallCommit sender_id receiver_id
      token_id none)).tokens.owner_by_id token_id = some receiver_id := by
    rw [happly]
    show alookup (setOwner c.tokens.owner_by_id token_id receiver_id) token_id =
      some receiver_id
    rw [alookup_setOwner, if_pos rfl, hown]
    rfl
  have hrev : ∀ c2 : Contract,
      alookup c2.tokens.owner_by_id token_id = some receiver_id →
      alookup (c2.nft_resolve_transfer sender_id receiver_id token_id
          (c.tokens.approvals_by_id token_id) true).tokens.owner_by_id token_id =
        some sender_id ∧
      (c2.nft_resolve_transfer sender_id receiver_id token_id
          (c.tokens.approvals_by_id token_id) true).tokens.approvals_by_id token_id =
        c.tokens.approvals_by_id token_id := by
    intro c2 h2
    rw [resolve_revert_eq sender_id _ h2]
    constructor
    · show alookup (setOwner c2.tokens.owner_by_id token_id sender_id) token_id =
        some sender_id
      rw [alookup_setOwner, if_pos rfl, h2]
      rfl
    · show (if token_id = token_id then c.tokens.approvals_by_id token_id
        else (c2.tokens.internal_transfer_unguarded token_id receiver_id
          sender_id).approvals_by_id token_id) = c.tokens.approvals_by_id token_id
      rw [if_pos rfl]
  have hnm : token_id ∉ (Contract.nft_resolve_transfer
      (applyOp c (Op.transferCallCommit sender_id receiver_id token_id none))
      sender_id receiver_id token_id (c.tokens.approvals_by_id token_id)
      true).tokens.tokens_per_owner receiver_id := by
    rw [resolve_revert_eq sender_id _ hownafter]
    show token_id ∉ movePerOwner (applyOp c (Op.transferCallCommit sender_id
      receiver_id token_id none)).tokens.tokens_per_owner token_id receiver_id
      sender_id receiver_id
    rw [mem_movePerOwner]
    rintro (⟨hr, -⟩ | ⟨-, hno⟩)
    · exact hne hr.symm
    · exact hno ⟨rfl, rfl⟩
  refine ⟨?_, hrev, fun c2 h2 => resolve_skip_eq sender_id _ h2, hownafter,
    (hrev _ hownafter).1, hnm⟩
  unfold Contract.nft_transfer_call_commit
  rw [hcommit]
  rfl

/-- Witness for C3: alice owns "t1", the transfer-and-notify to bob commits,
bob rejects, the revert restores alice as owner and bob's enumeration set
does not contain the token. -/
theorem claim_C3_transfer_call_resolution_witness :
    alookup (applyOp cT1 (Op.transferCallCommit ("alice") ("bob") ("t1")
      none)).tokens.owner_by_id ("t1") = some ("bob") ∧
    alookup (Contract.nft_resolve_transfer
        (applyOp cT1 (Op.transferCallCommit ("alice") ("bob") ("t1") none))
        ("alice") ("bob") ("t1") (cT1.tokens.approvals_by_id ("t1"))
        true).tokens.owner_by_id ("t1") = some ("alice") ∧
    ("t1") ∉ (Contract.nft_resolve_transfer
        (applyOp cT1 (Op.transferCallCommit ("alice") ("bob") ("t1") none))
        ("alice") ("bob") ("t1") (cT1.tokens.approvals_by_id ("t1"))
        true).tokens.tokens_per_owner ("bob") := by
  have h := claim_C3_transfer_call_resolution cT1 ("alice") ("bob") ("t1")
    (by decide) (by decide)
  exact ⟨h.2.2.2.1, h.2.2.2.2.1, h.2.2.2.2.2⟩

/-- C9: in every state reachable from initialization by any sequence of mint,
transfer, transfer-and-notify (commit and resolve) and burn operations, a
token id is in an account's per-owner enumeration set exactly when that
account is the token's current owner (hence in no other account's set), and
`nft_supply_for_owner` equals the number of tokens whose `owner_by_id` entry
names that account. -/
theorem claim_C9_enumeration_invariant (owner_id : AccountId)
    (metadata : NFTContractMetadata) (ops : List Op) :
    (∀ (a : AccountId) (t : TokenId),
      t ∈ (applyOps (Contract.initState owner_id metadata) ops).tokens.tokens_per_owner a ↔
        alookup (applyOps (Contract.initState owner_id metadata) ops).tokens.owner_by_id t =
          some a) ∧
    (∀ a : AccountId,
      (applyOps (Contract.initState owner_id metadata) ops).nft_supply_for_owner a =
        (ownedTokens (applyOps (Contract.initState owner_id metadata) ops).tokens a).length) := by
  have hinit : Consistent (Contract.initState owner_id metadata).tokens := by
    refine ⟨?_, ?_, ?_⟩ <;> simp [Contract.initState, NonFungibleToken.init, alookup]
  have hc := consistent_applyOps hinit ops
  exact ⟨hc.2.2, fun a => supply_eq_owned hc a⟩

end NftSpec
